import Mathlib

/-!
Verification of the SE-GRID-BUILDER dashboard's analysis logic.

Numeric values that the TypeScript source holds in IEEE doubles are
modelled as rationals (`ℚ`); string-literal union types are modelled as
`String` except for the RTCA job status, which is central to the job
state-machine claims and is modelled as an inductive type.  JavaScript's
`Array.prototype.sort` (stable since ES2019) applied with a comparator
that orders by a key is modelled by `List.mergeSort` with the
corresponding boolean `le` test.
-/

namespace SEGrid

/-! ## State-estimator residual analysis
    (`OutlierTable.tsx`, `SolverPanel.tsx`, `ResidualHeatmap.tsx`) -/

/-- `SEResidual` from `hooks/useStateEstimator.ts`. -/
structure SEResidual where
  element_type : String
  element_id : ℤ
  meas_type : String
  residual : ℚ
  std_dev : ℚ
deriving DecidableEq, Repr

/-- A row of `OutlierTable.processedData`: the spread residual plus the
derived `norm_res`, `element_label`, `type_label` fields. -/
structure ProcessedRow where
  element_type : String
  element_id : ℤ
  meas_type : String
  residual : ℚ
  std_dev : ℚ
  norm_res : ℚ
  element_label : String
  type_label : String
deriving DecidableEq, Repr

/-- Forgets the derived fields of a processed row. -/
def ProcessedRow.toResidual (r : ProcessedRow) : SEResidual :=
  { element_type := r.element_type
    element_id := r.element_id
    meas_type := r.meas_type
    residual := r.residual
    std_dev := r.std_dev }

/-- The `.map` step of `processedData` in `OutlierTable.tsx`. -/
def enrichResidual (r : SEResidual) : ProcessedRow :=
  { element_type := r.element_type
    element_id := r.element_id
    meas_type := r.meas_type
    residual := r.residual
    std_dev := r.std_dev
    norm_res := |r.residual / r.std_dev|
    element_label := r.element_type ++ "_" ++ toString r.element_id
    type_label := r.element_type.toUpper ++ "_" ++ r.meas_type.toUpper }

/-- The comparator of `processedData` under the default sort state
`{column: norm_res, direction: desc}`: `-(a.norm_res - b.norm_res)`,
i.e. descending by `norm_res`. -/
def normResDescLe (a b : ProcessedRow) : Bool :=
  decide (b.norm_res ≤ a.norm_res)

/-- `processedData` of `OutlierTable.tsx` under the default sort state:
map each residual to its enriched row, then sort descending by
normalized residual. -/
def processedData (residuals : List SEResidual) : List ProcessedRow :=
  (residuals.map enrichResidual).mergeSort normResDescLe

/-- `getRowClassName` of `OutlierTable.tsx`. -/
def getRowClassName (normRes : ℚ) : String :=
  if normRes > 3 then "bg-red-50 border-red-200"
  else if normRes > 2 then "bg-yellow-50 border-yellow-200"
  else "bg-white border-gray-200"

/-- The `Total:` figure of the `OutlierTable` summary. -/
def totalCount (residuals : List SEResidual) : ℕ :=
  (processedData residuals).length

/-- The `Suspect (>3σ)` figure of the `OutlierTable` summary. -/
def suspectCount (residuals : List SEResidual) : ℕ :=
  ((processedData residuals).filter (fun r => decide (r.norm_res > 3))).length

/-- The `Warning (>2σ)` figure of the `OutlierTable` summary. -/
def warningCount (residuals : List SEResidual) : ℕ :=
  ((processedData residuals).filter
    (fun r => decide (r.norm_res > 2) && decide (r.norm_res ≤ 3))).length

/-- The `Outliers: … suspect` figure of `SolverPanel.tsx`:
`data.residuals.filter(r => Math.abs(r.residual / r.std_dev) > 3).length`. -/
def solverOutlierCount (residuals : List SEResidual) : ℕ :=
  (residuals.filter (fun r => decide (|r.residual / r.std_dev| > 3))).length

/-- A heatmap cell pushed by `transformData` of `ResidualHeatmap.tsx`. -/
structure HeatCell where
  x : String
  y : ℚ
  residual : ℚ
  std_dev : ℚ
  norm_res : ℚ
deriving DecidableEq, Repr

/-- The grouping key `(element_type + "_" + meas_type).toUpperCase()`. -/
def heatKey (r : SEResidual) : String :=
  (r.element_type ++ "_" ++ r.meas_type).toUpper

/-- The cell built for one residual by `transformData`. -/
def heatCell (r : SEResidual) : HeatCell :=
  { x := r.element_type ++ "_" ++ toString r.element_id
    y := |r.residual / r.std_dev|
    residual := r.residual
    std_dev := r.std_dev
    norm_res := |r.residual / r.std_dev| }

/-- Appending a cell to its group, preserving first-insertion key order
(the JavaScript object accumulator of the `reduce`). -/
def insertHeatCell : List (String × List HeatCell) → String → HeatCell →
    List (String × List HeatCell)
  | [], k, c => [(k, [c])]
  | (k', cs) :: rest, k, c =>
    if k' = k then (k', cs ++ [c]) :: rest
    else (k', cs) :: insertHeatCell rest k c

/-- One series of the heatmap: a measurement-type id and its cells. -/
structure HeatmapSeries where
  id : String
  data : List HeatCell
deriving DecidableEq, Repr

/-- `transformData` of `ResidualHeatmap.tsx`: group residual cells by
measurement type, then sort each group's cells by element label. -/
def transformData (residuals : List SEResidual) : List HeatmapSeries :=
  (residuals.foldl (fun acc r => insertHeatCell acc (heatKey r) (heatCell r)) []).map
    (fun g => { id := g.1, data := g.2.mergeSort (fun a b => decide (a.x ≤ b.x)) })

/-- `maxNormRes` of `ResidualHeatmap.tsx`:
`Math.max(...residuals.map(r => Math.abs(r.residual / r.std_dev)), 5)`. -/
def maxNormRes (residuals : List SEResidual) : ℚ :=
  (residuals.map (fun r => |r.residual / r.std_dev|)).foldr max 5

/-! ## RTCA job registry (`hooks/useRTCAJobs.ts`) -/

/-- The `worst_violation` payload of an `RTCAJob`. -/
structure WorstViolation where
  type : String
  value : ℚ
  limit : ℚ
  element : String
  severity : String
deriving DecidableEq, Repr

/-- The `status` union of `RTCAJob`. -/
inductive JobStatus
  | queued
  | running
  | completed
  | failed
  | cancelled
deriving DecidableEq, Repr

/-- `completed`, `failed` and `cancelled` are the terminal statuses of the
job state machine. -/
def JobStatus.isTerminal : JobStatus → Bool
  | .completed => true
  | .failed => true
  | .cancelled => true
  | .queued => false
  | .running => false

/-- `RTCAJob` from `hooks/useRTCAJobs.ts`. -/
structure RTCAJob where
  id : String
  grid_id : String
  status : JobStatus
  progress : ℚ
  started_at : Option ℚ
  completed_at : Option ℚ
  scenario_name : Option String
  worst_violation : Option WorstViolation
  violations_count : Option ℕ
  error_message : Option String
deriving DecidableEq, Repr

/-- The partial job object `data.job` carried by a `job_update` or
`job_completed` message; `none` fields are absent from the payload and
survive the object spread unchanged. -/
structure JobPatch where
  id : String
  grid_id : Option String
  status : Option JobStatus
  progress : Option ℚ
  started_at : Option ℚ
  completed_at : Option ℚ
  scenario_name : Option String
  worst_violation : Option WorstViolation
  violations_count : Option ℕ
  error_message : Option String
deriving DecidableEq, Repr

/-- The object spread `{ ...job, ...data.job }`: fields present in the
patch overwrite, absent fields keep the job's values. -/
def mergeJob (job : RTCAJob) (p : JobPatch) : RTCAJob :=
  { id := p.id
    grid_id := p.grid_id.getD job.grid_id
    status := p.status.getD job.status
    progress := p.progress.getD job.progress
    started_at := p.started_at <|> job.started_at
    completed_at := p.completed_at <|> job.completed_at
    scenario_name := p.scenario_name <|> job.scenario_name
    worst_violation := p.worst_violation <|> job.worst_violation
    violations_count := p.violations_count <|> job.violations_count
    error_message := p.error_message <|> job.error_message }

/-- `RTCARegistry` from `hooks/useRTCAJobs.ts`. -/
structure RTCARegistry where
  total_jobs : ℤ
  running_jobs : ℤ
  queued_jobs : ℤ
  jobs : List RTCAJob
deriving DecidableEq, Repr

/-- The SSE messages dispatched by the `onmessage` handler of
`useRTCAJobs`. -/
inductive RTCAMessage
  | registry_update (registry : RTCARegistry)
  | job_update (patch : JobPatch)
  | job_added (job : RTCAJob)
  | job_completed (patch : JobPatch)
deriving DecidableEq, Repr

/-- The `setRegistry` reducer of the `onmessage` handler of
`useRTCAJobs`, one message at a time. -/
def applyRTCAMessage (reg : RTCARegistry) : RTCAMessage → RTCARegistry
  | .registry_update r => r
  | .job_update p =>
    { reg with
      jobs := reg.jobs.map (fun job => if job.id = p.id then mergeJob job p else job) }
  | .job_added job =>
    { reg with
      total_jobs := reg.total_jobs + 1
      queued_jobs := reg.queued_jobs + 1
      jobs := reg.jobs ++ [job] }
  | .job_completed p =>
    { reg with
      running_jobs := max 0 (reg.running_jobs - 1)
      jobs := reg.jobs.map (fun job => if job.id = p.id then mergeJob job p else job) }

/-- The per-job registry update steps named by the spec:
`job_added`, `job_update` and `job_completed` (everything except the
wholesale `registry_update` replacement). -/
def RTCAMessage.isStep : RTCAMessage → Bool
  | .registry_update _ => false
  | .job_update _ => true
  | .job_added _ => true
  | .job_completed _ => true

/-- The progress value (if any) that a message's patch carries for the
job with the given id. -/
def msgProgressFor (m : RTCAMessage) (jobId : String) : Option ℚ :=
  match m with
  | .job_update p => if jobId = p.id then p.progress else none
  | .job_completed p => if jobId = p.id then p.progress else none
  | _ => none

/-- The status value (if any) that a message's patch carries for the job
with the given id. -/
def msgStatusFor (m : RTCAMessage) (jobId : String) : Option JobStatus :=
  match m with
  | .job_update p => if jobId = p.id then p.status else none
  | .job_completed p => if jobId = p.id then p.status else none
  | _ => none

/-! ## RTCA violations and loadings views
    (`ViolationsTable`, `WaterfallChart`, `ProgressBanner`) -/

/-- `RTCAViolation` from `hooks/useRTCAStream.ts`. -/
structure RTCAViolation where
  id : String
  outage : String
  contingency_id : String
  pre_loading : ℚ
  post_loading : ℚ
  loading_percent : ℚ
  voltage_violations : ℕ
  angle_margin : ℚ
  worst_bus : String
  worst_bus_voltage : ℚ
  severity : String
  timestamp : String
deriving DecidableEq, Repr

/-- The comparator of `sortedViolations` under the default sort state
`{column: loading_percent, direction: desc}`. -/
def loadingDescLe (a b : RTCAViolation) : Bool :=
  decide (b.loading_percent ≤ a.loading_percent)

/-- `sortedViolations` of `ViolationsTable` under the default sort
state: an empty input yields `[]`, otherwise a copy sorted descending by
`loading_percent`. -/
def sortedViolations (violations : List RTCAViolation) : List RTCAViolation :=
  if violations.length = 0 then []
  else violations.mergeSort loadingDescLe

/-- `RTCALoading` from `hooks/useRTCAStream.ts`. -/
structure RTCALoading where
  element_id : String
  element_type : String
  loading_percent : ℚ
  rating_mva : ℚ
  current_mva : ℚ
deriving DecidableEq, Repr

/-- `Math.round`: round half towards positive infinity. -/
def jsRound (q : ℚ) : ℤ := ⌊q + 1/2⌋

/-- `Math.round(x * 10) / 10`: round to one decimal place. -/
def roundTenth (q : ℚ) : ℚ := (jsRound (q * 10) : ℚ) / 10

/-- A bar of the `WaterfallChart`. -/
structure ChartEntry where
  name : String
  loading : ℚ
  current : ℚ
  rating : ℚ
  rank : ℕ
deriving DecidableEq, Repr

/-- The `.map((loading, index) => …)` step of `chartData` in
`WaterfallChart.tsx`. -/
def mkChartEntry (index : ℕ) (l : RTCALoading) : ChartEntry :=
  { name := l.element_type.toUpper ++ "_" ++ l.element_id
    loading := roundTenth l.loading_percent
    current := roundTenth l.current_mva
    rating := roundTenth l.rating_mva
    rank := index + 1 }

/-- `chartData` of `WaterfallChart.tsx`:
`loadings.slice(0, 20).map((loading, index) => …)`. -/
def chartData (loadings : List RTCALoading) : List ChartEntry :=
  (loadings.take 20).mapIdx mkChartEntry

/-- `RTCAProgress` from `hooks/useRTCAStream.ts`. -/
structure RTCAProgress where
  completed : ℕ
  total : ℕ
  current_contingency : String
  estimated_completion : String
  elapsed_time : ℚ
deriving DecidableEq, Repr

/-- `progressPercent` of `ProgressBanner.tsx`:
`progress ? Math.round((progress.completed / progress.total) * 100) : 100`. -/
def progressPercent (progress : Option RTCAProgress) : ℤ :=
  match progress with
  | some p => jsRound (((p.completed : ℚ) / (p.total : ℚ)) * 100)
  | none => 100

/-! ## Topology coloring (`topology/topologyUtils.ts`) -/

/-- `getVoltageColor` of `topologyUtils.ts`. -/
def getVoltageColor (voltagepu : ℚ) : String :=
  if voltagepu < 0.95 then "#ef4444"
  else if voltagepu < 0.98 then "#f97316"
  else if voltagepu > 1.05 then "#ef4444"
  else if voltagepu > 1.02 then "#f59e0b"
  else "#10b981"

/-! ## Event feed (`hooks/useEventFeed.ts`) -/

/-- `EventItem` from `hooks/useEventFeed.ts`. -/
structure EventItem where
  id : String
  timestamp : ℚ
  type : String
  severity : String
  message : String
  source : Option String
  acknowledged : Option Bool
  category : Option String
deriving DecidableEq, Repr

/-- `acknowledgeEvent` of `useEventFeed.ts` (the `setEvents` reducer):
set `acknowledged` on every event whose id matches. -/
def acknowledgeEvent (events : List EventItem) (eventId : String) : List EventItem :=
  events.map (fun e =>
    if e.id = eventId then { e with acknowledged := some true } else e)

/-! ## Helper lemmas -/

/-- Sorting does not change membership: every processed row is the
enrichment of an input residual. -/
lemma mem_processedData {residuals : List SEResidual} {row : ProcessedRow}
    (h : row ∈ processedData residuals) :
    ∃ r ∈ residuals, row = enrichResidual r := by
  have hperm := List.mergeSort_perm (residuals.map enrichResidual) normResDescLe
  have hmem : row ∈ residuals.map enrichResidual := hperm.mem_iff.mp h
  rcases List.mem_map.mp hmem with ⟨r, hr, hrow⟩
  exact ⟨r, hr, hrow.symm⟩

/-- Every processed row carries `norm_res = |residual / std_dev|`. -/
lemma norm_res_of_mem {residuals : List SEResidual} {row : ProcessedRow}
    (h : row ∈ processedData residuals) :
    row.norm_res = |row.residual / row.std_dev| := by
  obtain ⟨r, -, rfl⟩ := mem_processedData h
  rfl

/-- `Math.round` lands within one half of its argument. -/
lemma abs_jsRound_sub_le (q : ℚ) : |(jsRound q : ℚ) - q| ≤ 1/2 := by
  have h1 : ((⌊q + 1/2⌋ : ℤ) : ℚ) ≤ q + 1/2 := Int.floor_le _
  have h2 : q + 1/2 < ((⌊q + 1/2⌋ : ℤ) : ℚ) + 1 := Int.lt_floor_add_one _
  rw [abs_le]
  constructor <;> [skip; skip] <;> simp only [jsRound] <;> linarith

/-- `Math.round` is at least as close to its argument as any integer. -/
lemma jsRound_nearest (q : ℚ) (z : ℤ) :
    |(jsRound q : ℚ) - q| ≤ |(z : ℚ) - q| := by
  by_cases hz : z = jsRound q
  · rw [hz]
  · have hne : z - jsRound q ≠ 0 := sub_ne_zero.mpr hz
    have h1 : (1 : ℤ) ≤ |z - jsRound q| := Int.one_le_abs hne
    have h1q : (1 : ℚ) ≤ |(z : ℚ) - (jsRound q : ℚ)| := by
      exact_mod_cast h1
    have h2 := abs_jsRound_sub_le q
    have htri : |(z : ℚ) - (jsRound q : ℚ)| ≤ |(z : ℚ) - q| + |q - (jsRound q : ℚ)| :=
      abs_sub_le _ _ _
    have hsym : |q - (jsRound q : ℚ)| = |(jsRound q : ℚ) - q| := abs_sub_comm _ _
    linarith

/-- The default outlier sort leaves the rows pairwise non-increasing in
normalized residual. -/
lemma processedData_pairwise (residuals : List SEResidual) :
    (processedData residuals).Pairwise (fun a b => b.norm_res ≤ a.norm_res) := by
  have htr : ∀ a b c : ProcessedRow, normResDescLe a b = true →
      normResDescLe b c = true → normResDescLe a c = true := by
    intro a b c hab hbc
    simp only [normResDescLe, decide_eq_true_eq] at *
    exact hbc.trans hab
  have htot : ∀ a b : ProcessedRow, (normResDescLe a b || normResDescLe b a) = true := by
    intro a b
    simp only [normResDescLe, Bool.or_eq_true, decide_eq_true_eq]
    exact le_total b.norm_res a.norm_res
  have h := List.sorted_mergeSort htr htot (residuals.map enrichResidual)
  exact h.imp (fun hab => by simpa [normResDescLe] using hab)

/-- Row classification by `getRowClassName`: red exactly above 3, yellow
exactly on (2, 3], white exactly at or below 2. -/
lemma getRowClassName_cases (nr : ℚ) :
    (getRowClassName nr = "bg-red-50 border-red-200" ↔ 3 < nr) ∧
    (getRowClassName nr = "bg-yellow-50 border-yellow-200" ↔ (2 < nr ∧ nr ≤ 3)) ∧
    (getRowClassName nr = "bg-white border-gray-200" ↔ nr ≤ 2) := by
  unfold getRowClassName
  split_ifs with h1 h2
  · have ha : ¬ nr ≤ 3 := not_le.mpr h1
    have hb : ¬ nr ≤ 2 := fun hle => ha (hle.trans (by norm_num))
    simp [h1, ha, hb]
  · have ha : nr ≤ 3 := not_lt.mp h1
    have hb : ¬ nr ≤ 2 := not_le.mpr h2
    simp [h1, h2, ha, hb]
  · have ha : nr ≤ 2 := not_lt.mp h2
    simp [h1, h2, ha]

/-! ## Claim theorems -/

/-- C6: the topology rendering assigns the violation color `#ef4444`
(red) to a bus voltage magnitude exactly when it falls outside the
[0.95, 1.05] per-unit band. -/
theorem getVoltageColor_red_iff (voltagepu : ℚ) :
    getVoltageColor voltagepu = "#ef4444" ↔
      (voltagepu < 0.95 ∨ 1.05 < voltagepu) := by
  unfold getVoltageColor
  split_ifs with h1 h2 h3 h4
  · simp [h1]
  · refine ⟨fun hstr => absurd hstr (by decide), ?_⟩
    rintro (hv | hv)
    · exact absurd hv h1
    · linarith
  · simp [h3]
  · refine ⟨fun hstr => absurd hstr (by decide), ?_⟩
    rintro (hv | hv)
    · exact absurd hv h1
    · exact absurd hv h3
  · refine ⟨fun hstr => absurd hstr (by decide), ?_⟩
    rintro (hv | hv)
    · exact absurd hv h1
    · exact absurd hv h3

/-- C7: on an empty residual list every bad-data view is well defined and
reports zero: the outlier table's total, suspect and warning figures are
0, the solver panel reports 0 outliers, the heatmap's color scale
evaluates to its floor value 5 and its data transform yields the empty
series list (so the empty state is rendered). -/
theorem empty_analysis_safe :
    processedData [] = [] ∧ totalCount [] = 0 ∧ suspectCount [] = 0 ∧
    warningCount [] = 0 ∧ solverOutlierCount [] = 0 ∧
    maxNormRes [] = 5 ∧ transformData [] = [] := by
  refine ⟨?_, ?_, ?_, ?_, ?_, ?_, ?_⟩ <;>
    simp [processedData, totalCount, suspectCount, warningCount,
      solverOutlierCount, maxNormRes, transformData, List.mergeSort_nil]

/-- C5: for a progress event with a positive total, the displayed RTCA
percentage is `completed/total × 100` rounded to the nearest integer
(within one half of the exact value, and at least as close as any other
integer); with no progress event the displayed percentage is 100. -/
theorem progressPercent_correct (p : RTCAProgress) (h : 0 < p.total) :
    |(progressPercent (some p) : ℚ) - ((p.completed : ℚ) / (p.total : ℚ)) * 100| ≤ 1/2 ∧
    (∀ z : ℤ,
      |(progressPercent (some p) : ℚ) - ((p.completed : ℚ) / (p.total : ℚ)) * 100| ≤
        |(z : ℚ) - ((p.completed : ℚ) / (p.total : ℚ)) * 100|) ∧
    progressPercent none = 100 := by
  refine ⟨abs_jsRound_sub_le _, fun z => jsRound_nearest _ z, rfl⟩

/-- C1: every processed entry carries
`normalized_residual = |residual / std_dev|`; the row coloring marks an
entry suspect (red) exactly when the normalized residual exceeds 3.0
and warning (yellow) exactly when it lies in the 2.0–3.0 band (above
the code's strict `> 2` threshold, up to and including 3.0), normal
otherwise; and the summary's suspect and warning counts equal the
number of rows so classified. -/
theorem lnr_classification (residuals : List SEResidual) :
    (∀ row ∈ processedData residuals, row.norm_res = |row.residual / row.std_dev|) ∧
    (∀ nr : ℚ,
      (getRowClassName nr = "bg-red-50 border-red-200" ↔ 3 < nr) ∧
      (getRowClassName nr = "bg-yellow-50 border-yellow-200" ↔ (2 < nr ∧ nr ≤ 3)) ∧
      (getRowClassName nr = "bg-white border-gray-200" ↔ nr ≤ 2)) ∧
    suspectCount residuals = ((processedData residuals).filter
      (fun r => decide (getRowClassName r.norm_res = "bg-red-50 border-red-200"))).length ∧
    warningCount residuals = ((processedData residuals).filter
      (fun r => decide (getRowClassName r.norm_res = "bg-yellow-50 border-yellow-200"))).length := by
  refine ⟨fun row h => norm_res_of_mem h, getRowClassName_cases, ?_, ?_⟩
  · unfold suspectCount
    refine congrArg List.length (List.filter_congr ?_)
    intro r _
    exact decide_eq_decide.mpr ((getRowClassName_cases r.norm_res).1).symm
  · unfold warningCount
    refine congrArg List.length (List.filter_congr ?_)
    intro r _
    rw [← Bool.decide_and]
    exact decide_eq_decide.mpr ((getRowClassName_cases r.norm_res).2.1).symm

/-- C8: under the default sort state (column `norm_res`, direction
`desc`) the outlier table's processed data is a permutation of the input
residuals, ordered non-increasingly by `|residual / std_dev|`. -/
theorem processedData_sorted_desc (residuals : List SEResidual) :
    ((processedData residuals).map ProcessedRow.toResidual).Perm residuals ∧
    (processedData residuals).Pairwise (fun a b => b.norm_res ≤ a.norm_res) ∧
    ∀ row ∈ processedData residuals, row.norm_res = |row.residual / row.std_dev| := by
  refine ⟨?_, processedData_pairwise residuals, fun row h => norm_res_of_mem h⟩
  have hperm :=
    (List.mergeSort_perm (residuals.map enrichResidual) normResDescLe).map
      ProcessedRow.toResidual
  have hid : (residuals.map enrichResidual).map ProcessedRow.toResidual = residuals := by
    rw [List.map_map]
    have hcomp : ProcessedRow.toResidual ∘ enrichResidual = id := rfl
    rw [hcomp, List.map_id]
  refine hperm.trans ?_
  rw [hid]

/-- C9: the solver panel's outlier count (entries with
`|residual / std_dev| > 3`) and the outlier table's independently
computed `Suspect (>3σ)` figure are the same function of the residual
list. -/
theorem solver_count_eq_table_count (residuals : List SEResidual) :
    solverOutlierCount residuals = suspectCount residuals := by
  unfold solverOutlierCount suspectCount
  rw [← List.countP_eq_length_filter, ← List.countP_eq_length_filter]
  have hperm := List.mergeSort_perm (residuals.map enrichResidual) normResDescLe
  rw [processedData, hperm.countP_eq, List.countP_map]
  rfl

/-- C5 witness: a concrete event 7 of 9 contingencies displays 78%. -/
theorem progressPercent_correct_witness :
    (0 < (9 : ℕ)) ∧
    progressPercent (some ⟨7, 9, "line_4", "", 12⟩) = 78 ∧
    |(progressPercent (some ⟨7, 9, "line_4", "", 12⟩) : ℚ) - ((7 : ℚ) / 9) * 100| ≤ 1/2 := by
  refine ⟨by decide, by norm_num [progressPercent, jsRound], ?_⟩
  have h := (progressPercent_correct ⟨7, 9, "line_4", "", 12⟩ (by decide)).1
  simpa using h

/-- C4: under the default sort state (column `loading_percent`,
direction `desc`) the violations table presents a permutation of the
input violations ordered non-increasingly by `loading_percent`, and the
waterfall chart's data consists of exactly the first 20 entries of the
loadings list (entry `i` is built from input entry `i`). -/
theorem violations_ranking (violations : List RTCAViolation)
    (loadings : List RTCALoading) :
    (sortedViolations violations).Perm violations ∧
    (sortedViolations violations).Pairwise
      (fun a b => b.loading_percent ≤ a.loading_percent) ∧
    (chartData loadings).length = min 20 loadings.length ∧
    ∀ i : ℕ, (chartData loadings)[i]? =
      if i < 20 then (loadings[i]?).map (mkChartEntry i) else none := by
  refine ⟨?_, ?_, ?_, ?_⟩
  · unfold sortedViolations
    split_ifs with h0
    · rw [List.length_eq_zero.mp h0]
    · exact List.mergeSort_perm violations loadingDescLe
  · unfold sortedViolations
    split_ifs with h0
    · exact List.Pairwise.nil
    · have htr : ∀ a b c : RTCAViolation, loadingDescLe a b = true →
          loadingDescLe b c = true → loadingDescLe a c = true := by
        intro a b c hab hbc
        simp only [loadingDescLe, decide_eq_true_eq] at *
        exact hbc.trans hab
      have htot : ∀ a b : RTCAViolation,
          (loadingDescLe a b || loadingDescLe b a) = true := by
        intro a b
        simp only [loadingDescLe, Bool.or_eq_true, decide_eq_true_eq]
        exact le_total b.loading_percent a.loading_percent
      exact (List.sorted_mergeSort htr htot violations).imp
        (fun hab => by simpa [loadingDescLe] using hab)
  · simp [chartData, List.length_mapIdx, List.length_take]
  · intro i
    rw [chartData, List.getElem?_mapIdx, List.getElem?_take]
    split_ifs <;> simp

/-- C10: acknowledging an event id preserves the event list's length and
order; every event with another id is untouched, and each event with the
given id keeps every field except `acknowledged`, which is set. -/
theorem acknowledgeEvent_frame (events : List EventItem) (eventId : String) :
    (acknowledgeEvent events eventId).length = events.length ∧
    ∀ (i : ℕ) (e : EventItem), events[i]? = some e →
      ∃ e', (acknowledgeEvent events eventId)[i]? = some e' ∧
        (e.id ≠ eventId → e' = e) ∧
        (e.id = eventId →
          e'.id = e.id ∧ e'.timestamp = e.timestamp ∧ e'.type = e.type ∧
          e'.severity = e.severity ∧ e'.message = e.message ∧
          e'.source = e.source ∧ e'.category = e.category ∧
          e'.acknowledged = some true) := by
  constructor
  · exact List.length_map events _
  · intro i e hget
    refine ⟨if e.id = eventId then { e with acknowledged := some true } else e, ?_, ?_, ?_⟩
    · rw [acknowledgeEvent, List.getElem?_map, hget]
      rfl
    · intro hne
      simp [hne]
    · intro heq
      simp [heq]

/-- C10 witness: acknowledging event `e1` in a concrete two-event list
marks the matching event and leaves the other untouched. -/
theorem acknowledgeEvent_frame_witness :
    (∃ e', (acknowledgeEvent
        [⟨"e1", 0, "alarm", "high", "relay trip", none, none, none⟩,
         ⟨"e2", 1, "info", "low", "breaker close", some "scada", some false, some "control"⟩]
        "e1")[0]? = some e' ∧
      ((⟨"e1", 0, "alarm", "high", "relay trip", none, none, none⟩ : EventItem).id ≠ "e1" →
        e' = ⟨"e1", 0, "alarm", "high", "relay trip", none, none, none⟩) ∧
      ((⟨"e1", 0, "alarm", "high", "relay trip", none, none, none⟩ : EventItem).id = "e1" →
        e'.id = "e1" ∧ e'.timestamp = 0 ∧ e'.type = "alarm" ∧
        e'.severity = "high" ∧ e'.message = "relay trip" ∧
        e'.source = none ∧ e'.category = none ∧
        e'.acknowledged = some true)) :=
  (acknowledgeEvent_frame
    [⟨"e1", 0, "alarm", "high", "relay trip", none, none, none⟩,
     ⟨"e2", 1, "info", "low", "breaker close", some "scada", some false, some "control"⟩]
    "e1").2 0 ⟨"e1", 0, "alarm", "high", "relay trip", none, none, none⟩ rfl

/-! ## RTCA registry step behaviour (C2, C3) -/

/-- A concrete running job at progress 50. -/
def cexJob : RTCAJob :=
  ⟨"j1", "g1", .running, 50, none, none, none, none, none, none⟩

/-- A registry holding only `cexJob`. -/
def cexReg : RTCARegistry := ⟨1, 1, 0, [cexJob]⟩

/-- A `job_update` patch carrying a lower progress value for `j1`. -/
def cexProgressPatch : JobPatch :=
  ⟨"j1", none, none, some 10, none, none, none, none, none, none⟩

/-- C2 counterexample: the reducer applies whatever progress a
`job_update` message carries; a running job at progress 50 drops to 10
after one update step, so progress is not monotonically non-decreasing
over arbitrary sequences of registry update steps. -/
theorem rtca_progress_can_decrease :
    cexJob.status.isTerminal = false ∧
    cexReg.jobs[0]? = some cexJob ∧
    cexJob.progress = 50 ∧
    ((applyRTCAMessage cexReg (RTCAMessage.job_update cexProgressPatch)).jobs[0]?).map
      RTCAJob.progress = some 10 ∧
    ¬ ((50 : ℚ) ≤ 10) := by
  refine ⟨rfl, rfl, rfl, rfl, by norm_num⟩

/-- C2 (amended): across any single registry update step (`job_added`,
`job_update` or `job_completed`), a tracked job's progress does not
decrease provided the message's patch, when it matches the job's id and
carries a progress value, carries one no smaller than the job's current
progress; the reducer itself never lowers progress except by applying
such a patch value verbatim. -/
theorem rtca_step_progress_monotone (reg : RTCARegistry) (m : RTCAMessage)
    (i : ℕ) (jb : RTCAJob)
    (hm : m.isStep = true) (hget : reg.jobs[i]? = some jb)
    (hp : ∀ q, msgProgressFor m jb.id = some q → jb.progress ≤ q) :
    ∃ jb', (applyRTCAMessage reg m).jobs[i]? = some jb' ∧
      jb.progress ≤ jb'.progress := by
  cases m with
  | registry_update r => simp [RTCAMessage.isStep] at hm
  | job_update p =>
    refine ⟨if jb.id = p.id then mergeJob jb p else jb, ?_, ?_⟩
    · rw [applyRTCAMessage]
      rw [List.getElem?_map, hget]
      rfl
    · by_cases hid : jb.id = p.id
      · rw [if_pos hid]
        cases hq : p.progress with
        | none => simp [mergeJob, hq]
        | some q =>
          have hle := hp q (by simp [msgProgressFor, hid, hq])
          simpa [mergeJob, hq] using hle
      · rw [if_neg hid]
  | job_added j =>
    have hlen : i < reg.jobs.length := by
      rcases List.getElem?_eq_some.mp hget with ⟨hl, -⟩
      exact hl
    refine ⟨jb, ?_, le_refl _⟩
    rw [applyRTCAMessage]
    rw [List.getElem?_append, if_pos hlen]
    exact hget
  | job_completed p =>
    refine ⟨if jb.id = p.id then mergeJob jb p else jb, ?_, ?_⟩
    · rw [applyRTCAMessage]
      rw [List.getElem?_map, hget]
      rfl
    · by_cases hid : jb.id = p.id
      · rw [if_pos hid]
        cases hq : p.progress with
        | none => simp [mergeJob, hq]
        | some q =>
          have hle := hp q (by simp [msgProgressFor, hid, hq])
          simpa [mergeJob, hq] using hle
      · rw [if_neg hid]

/-- A `job_update` patch advancing `j1` to progress 60. -/
def advancePatch : JobPatch :=
  ⟨"j1", none, none, some 60, none, none, none, none, none, none⟩

/-- C2 witness: applying the amended step theorem at the concrete
registry with a patch advancing progress from 50 to 60. -/
theorem rtca_step_progress_monotone_witness :
    ∃ jb', (applyRTCAMessage cexReg (RTCAMessage.job_update advancePatch)).jobs[0]? =
      some jb' ∧ cexJob.progress ≤ jb'.progress :=
  rtca_step_progress_monotone cexReg (RTCAMessage.job_update advancePatch) 0 cexJob
    rfl rfl
    (by
      intro q hq
      have hq60 : some (60 : ℚ) = some q := by
        simpa [msgProgressFor, cexJob, advancePatch] using hq
      have : (60 : ℚ) = q := Option.some.inj hq60
      rw [← this]
      norm_num [cexJob])

/-- A concrete completed job. -/
def cexDoneJob : RTCAJob :=
  ⟨"j2", "g1", .completed, 100, none, none, none, none, none, none⟩

/-- A registry holding only `cexDoneJob`. -/
def cexDoneReg : RTCARegistry := ⟨1, 0, 0, [cexDoneJob]⟩

/-- A `job_update` patch moving `j2` back to `running`. -/
def cexStatusPatch : JobPatch :=
  ⟨"j2", none, some .running, some 40, none, none, none, none, none, none⟩

/-- C3 counterexample: the reducer applies whatever status a
`job_update` message carries; a `completed` (terminal) job transitions
back to `running` after one update step, so terminal statuses are not
final under arbitrary sequences of registry update steps. -/
theorem rtca_terminal_status_can_change :
    cexDoneJob.status = JobStatus.completed ∧
    cexDoneJob.status.isTerminal = true ∧
    cexDoneReg.jobs[0]? = some cexDoneJob ∧
    ((applyRTCAMessage cexDoneReg (RTCAMessage.job_update cexStatusPatch)).jobs[0]?).map
      RTCAJob.status = some JobStatus.running ∧
    JobStatus.running ≠ JobStatus.completed := by
  refine ⟨rfl, rfl, rfl, rfl, by decide⟩

/-- C3 (amended): across any single registry update step, a job whose
status is terminal keeps that status provided the message's patch, when
it matches the job's id and carries a status, carries the job's current
status; the reducer itself never changes a status except by applying
such a patch value verbatim, so it does not enforce the forward
`queued → running → {completed | failed | cancelled}` lattice. -/
theorem rtca_step_terminal_status_stable (reg : RTCARegistry) (m : RTCAMessage)
    (i : ℕ) (jb : RTCAJob)
    (hm : m.isStep = true) (hget : reg.jobs[i]? = some jb)
    (hterm : jb.status.isTerminal = true)
    (hs : ∀ s, msgStatusFor m jb.id = some s → s = jb.status) :
    ∃ jb', (applyRTCAMessage reg m).jobs[i]? = some jb' ∧
      jb'.status = jb.status := by
  cases m with
  | registry_update r => simp [RTCAMessage.isStep] at hm
  | job_update p =>
    refine ⟨if jb.id = p.id then mergeJob jb p else jb, ?_, ?_⟩
    · rw [applyRTCAMessage]
      rw [List.getElem?_map, hget]
      rfl
    · by_cases hid : jb.id = p.id
      · rw [if_pos hid]
        cases hq : p.status with
        | none => simp [mergeJob, hq]
        | some s =>
          have heq := hs s (by simp [msgStatusFor, hid, hq])
          simp [mergeJob, hq, heq]
      · rw [if_neg hid]
  | job_added j =>
    have hlen : i < reg.jobs.length := by
      rcases List.getElem?_eq_some.mp hget with ⟨hl, -⟩
      exact hl
    refine ⟨jb, ?_, rfl⟩
    rw [applyRTCAMessage]
    rw [List.getElem?_append, if_pos hlen]
    exact hget
  | job_completed p =>
    refine ⟨if jb.id = p.id then mergeJob jb p else jb, ?_, ?_⟩
    · rw [applyRTCAMessage]
      rw [List.getElem?_map, hget]
      rfl
    · by_cases hid : jb.id = p.id
      · rw [if_pos hid]
        cases hq : p.status with
        | none => simp [mergeJob, hq]
        | some s =>
          have heq := hs s (by simp [msgStatusFor, hid, hq])
          simp [mergeJob, hq, heq]
      · rw [if_neg hid]

/-- A `job_completed` patch for `j2` that carries no status change. -/
def donePatch : JobPatch :=
  ⟨"j2", none, none, some 100, none, none, none, none, none, none⟩

/-- C3 witness: applying the amended step theorem at the concrete
registry whose completed job receives a status-free patch. -/
theorem rtca_step_terminal_status_stable_witness :
    ∃ jb', (applyRTCAMessage cexDoneReg (RTCAMessage.job_completed donePatch)).jobs[0]? =
      some jb' ∧ jb'.status = cexDoneJob.status :=
  rtca_step_terminal_status_stable cexDoneReg (RTCAMessage.job_completed donePatch) 0
    cexDoneJob rfl rfl rfl
    (by
      intro s hsome
      simp [msgStatusFor, cexDoneJob, donePatch] at hsome)

end SEGrid
